import Mathlib

/-
Verification of the `translation_chunker` package (token-budgeted text chunking).

Shallow embedding conventions:
* Python strings are `List Char`; Python slicing `s[:n]` / `s[n:]` is
  `List.take` / `List.drop`; `s[-k:]` (0 < k < len) is `List.drop (len - k)`.
* The external tokenizer (tiktoken) is an opaque capability: a function
  `Tokenizer := List Char → Nat` standing for `fun s => len(tokenizer.encode(s))`.
* Python `int` is `Int` where negative values are representable at the API
  (config fields, boundary positions); loop counters that are provably
  non-negative are `Nat`.
* Floats only ever take the values 0, 0.1, 0.3, 0.4, 0.5, 0.6, 0.8, 1.0 and are
  compared with `<`/`>` on these exact constants, so they are modelled as `Rat`.
* Raising `ValueError` is modelled with `Except String`.
* `TextChunk.__post_init__` validation is not modelled: no claim below is about
  chunk-constructor errors, and modelling it would not change any statement.
-/

/-- Python's `str.strip()` whitespace test, restricted to the ASCII whitespace
characters (the texts in this development are ASCII). -/
def pyIsSpace (c : Char) : Bool :=
  c = ' ' || c = '\t' || c = '\n' || c = '\r' || c = '\x0b' || c = '\x0c'

/-- Leading-whitespace strip (`str.lstrip`). -/
def pyLStrip (s : List Char) : List Char := s.dropWhile pyIsSpace

/-- Trailing-whitespace strip (`str.rstrip`). -/
def pyRStrip (s : List Char) : List Char := (s.reverse.dropWhile pyIsSpace).reverse

/-- Python `str.strip()`: drop leading and trailing whitespace. -/
def pyStrip (s : List Char) : List Char := pyRStrip (pyLStrip s)

/-- The external tokenizer capability: `tok s` models `len(tokenizer.encode(s))`. -/
def Tokenizer : Type := List Char → Nat

/-- `TokenManager.count_tokens` (simple_token_manager.py):
`if not text: return 0; return len(self.tokenizer.encode(text))`. -/
def count_tokens (tok : Tokenizer) (text : List Char) : Nat :=
  if text = [] then 0 else tok text

/-- The `while left <= right` binary-search loop inside
`TokenManager.find_token_boundary`.  `left`, `right`, `best_pos` are Python
ints; `text[:mid]` is `text.take mid.toNat` (the loop only ever reaches
non-negative `mid`, where the two agree). -/
def findBoundaryLoop (tok : Tokenizer) (text : List Char) (target : Int)
    (left right best : Int) : Int :=
  if h : left ≤ right then
    let mid := (left + right) / 2
    if (count_tokens tok (text.take mid.toNat) : Int) ≤ target then
      findBoundaryLoop tok text target (mid + 1) right mid
    else
      findBoundaryLoop tok text target left (mid - 1) best
  else best
termination_by (right + 1 - left).toNat
decreasing_by
  all_goals omega

/-- `TokenManager.find_token_boundary` (simple_token_manager.py). -/
def find_token_boundary (tok : Tokenizer) (text : List Char) (target : Int) : Nat :=
  if text = [] then 0
  else if (count_tokens tok text : Int) ≤ target then text.length
  else (findBoundaryLoop tok text target 0 text.length 0).toNat

/-- `ChunkType` (models.py): closed enum of chunk kinds. -/
inductive ChunkType where
  | FIRST
  | MIDDLE
  | FINAL
deriving DecidableEq, Repr

/-- `ChunkingConfig` (models.py): the dataclass fields.  `__post_init__`
validation is modelled separately by `mkChunkingConfig`. -/
structure ChunkingConfig where
  max_chunk_tokens : Int
  overlap_tokens : Int
  tokenizer_name : String
deriving DecidableEq, Repr

/-- `ChunkingConfig.__post_init__` (models.py): construction validates the
fields and raises `ValueError` on the first violated check. -/
def mkChunkingConfig (max_chunk_tokens overlap_tokens : Int)
    (tokenizer_name : String) : Except String ChunkingConfig :=
  if max_chunk_tokens ≤ 0 then Except.error ("max_chunk_tokens must be positive")
  else if overlap_tokens < 0 then Except.error ("overlap_tokens must be non-negative")
  else if max_chunk_tokens ≤ overlap_tokens then
    Except.error ("overlap_tokens must be less than max_chunk_tokens")
  else Except.ok ⟨max_chunk_tokens, overlap_tokens, tokenizer_name⟩

/-- The validity predicate `mkChunkingConfig` enforces. -/
def validChunkingConfig (cfg : ChunkingConfig) : Prop :=
  0 < cfg.max_chunk_tokens ∧ 0 ≤ cfg.overlap_tokens ∧
    cfg.overlap_tokens < cfg.max_chunk_tokens

instance (cfg : ChunkingConfig) : Decidable (validChunkingConfig cfg) := by
  unfold validChunkingConfig
  infer_instance

/-- `TokenManager.get_effective_chunk_size`:
`config.max_chunk_tokens - config.overlap_tokens`. -/
def get_effective_chunk_size (cfg : ChunkingConfig) : Int :=
  cfg.max_chunk_tokens - cfg.overlap_tokens

/-- The `boundary_info` dictionary returned by
`BoundaryOptimizer.get_boundary_info`.  The edge case builds a dictionary
without the two context keys, hence the `Option` fields. -/
structure BoundaryInfo where
  position : Int
  type : String
  score : Rat
  before_context : Option (List Char)
  after_context : Option (List Char)
deriving DecidableEq, Repr

/-- `TextChunk` (models.py) as a plain record. -/
structure TextChunk where
  chunk_id : Nat
  chunk_type : ChunkType
  text : List Char
  token_count : Nat
  start_position : Nat
  end_position : Nat
  overlap_with_previous : Nat
  boundary_info : BoundaryInfo
  boundary_score : Rat
deriving DecidableEq, Repr

/-- Sentence-ending punctuation class `[.!?]` of the optimizer's regexes. -/
def isPunct (c : Char) : Bool := c = '.' || c = '!' || c = '?'

/-- True when the list starts with a whitespace character (used to test the
regex requirement of at least one `\s` after a match position). -/
def spaceAtHead (s : List Char) : Bool :=
  match s with
  | [] => false
  | c :: _ => pyIsSpace c

/-- End positions (`match.end()`) of the matches of `re.finditer(r'\n\n+', w)`:
the regex is greedy, so each match is a maximal run of two or more newlines,
and its end is the index just past the run.  `i` is the index of the head of
the remaining input, `run` the length of the newline run ending just before
`i`. -/
def parEndsGo : List Char → Nat → Nat → List Nat
  | [], i, run => if 2 ≤ run then [i] else []
  | c :: rest, i, run =>
    if c = '\n' then parEndsGo rest (i + 1) (run + 1)
    else if 2 ≤ run then i :: parEndsGo rest (i + 1) 0
    else parEndsGo rest (i + 1) 0

def parEnds (w : List Char) : List Nat := parEndsGo w 0 0

/-- End positions of the matches of `re.finditer(r'[.!?]\s+', w)`.  A match
starts at a punctuation character directly followed by whitespace and (being
greedy) consumes the maximal whitespace run after it.  Matches cannot overlap:
the characters consumed after the starting punctuation are all whitespace, so
no later match can start inside an earlier one; scanning every position is
therefore exactly the non-overlapping left-to-right `finditer` scan. -/
def sentEndsGo : List Char → Nat → List Nat
  | [], _ => []
  | c :: rest, i =>
    if isPunct c && spaceAtHead rest then
      (i + 1 + (rest.takeWhile pyIsSpace).length) :: sentEndsGo rest (i + 1)
    else sentEndsGo rest (i + 1)

def sentEnds (w : List Char) : List Nat := sentEndsGo w 0

/-- End positions of the matches of `re.finditer(r'\n', w)`. -/
def lineEndsGo : List Char → Nat → List Nat
  | [], _ => []
  | c :: rest, i =>
    if c = '\n' then (i + 1) :: lineEndsGo rest (i + 1)
    else lineEndsGo rest (i + 1)

def lineEnds (w : List Char) : List Nat := lineEndsGo w 0

/-- `BoundaryOptimizer._is_within_token_limit` with its default
`tolerance = 50`. -/
def is_within_token_limit (tok : Tokenizer) (text : List Char) (target : Int) : Bool :=
  (count_tokens tok text : Int) ≤ target + 50

/-- One candidate-scanning `for match in re.finditer(...)` loop of
`BoundaryOptimizer.find_optimal_boundary`: for each match end `e` (relative to
the search window starting at `start`), the candidate `pos = start + e` is
accepted when the prefix up to it is within the token limit (with tolerance)
and the tier's `score` strictly beats the running best. -/
def scanCandidates (tok : Tokenizer) (text : List Char) (target : Int)
    (score : Rat) (start : Nat) : List Nat → Nat × Rat → Nat × Rat
  | [], best => best
  | e :: rest, best =>
    let pos := start + e
    let best' :=
      if is_within_token_limit tok (text.take pos) target && decide (best.2 < score)
      then (pos, score) else best
    scanCandidates tok text target score start rest best'

/-- `BoundaryOptimizer.find_optimal_boundary` (simple_boundary_optimizer.py).
The search window `text[start_pos:end_pos]` is `(text.take end_pos).drop
start_pos`; `max(0, approx_pos - search_window)` is Nat subtraction. -/
def findOptimalBoundary (tok : Tokenizer) (text : List Char) (target : Int) :
    Nat × Rat :=
  if text = [] then (0, 0)
  else if (count_tokens tok text : Int) ≤ target then (text.length, 1)
  else
    let approx_pos := find_token_boundary tok text target
    let search_window := min 500 (text.length / 10)
    let start_pos := approx_pos - search_window
    let end_pos := min text.length (approx_pos + search_window)
    let window := (text.take end_pos).drop start_pos
    let b1 := scanCandidates tok text target 1 start_pos (parEnds window)
      (approx_pos, 1/2)
    let b2 := if b1.2 < 9/10 then
      scanCandidates tok text target (8/10) start_pos (sentEnds window) b1 else b1
    let b3 := if b2.2 < 7/10 then
      scanCandidates tok text target (6/10) start_pos (lineEnds window) b2 else b2
    b3

/-
Fragment scanner for `re.split(r'[.!?]\s+', s)` (used by
`BoundaryOptimizer.create_overlap`).  `splitSentGo cur rest` scans `rest` with
`cur` the current fragment accumulated in reverse; when a separator match is
found (punctuation directly followed by whitespace), the fragment is emitted
and `splitSentSkip` consumes the greedy whitespace run of the separator.  As
with `sentEnds`, separator matches cannot overlap, so this character-by-
character scan is exactly the regex's non-overlapping left-to-right scan.
-/
mutual

def splitSentGo (cur : List Char) : List Char → List (List Char)
  | [] => [cur.reverse]
  | c :: rest =>
    if isPunct c && spaceAtHead rest then cur.reverse :: splitSentSkip rest
    else splitSentGo (c :: cur) rest

def splitSentSkip : List Char → List (List Char)
  | [] => [[]]
  | c :: rest =>
    if pyIsSpace c then splitSentSkip rest
    else if isPunct c && spaceAtHead rest then [] :: splitSentSkip rest
    else splitSentGo [c] rest

end

/-- `re.split(r'[.!?]\s+', s)`: the fragments of `s` between the separator
matches. -/
def splitSentences (s : List Char) : List (List Char) := splitSentGo [] s

/-- `BoundaryOptimizer.create_overlap` (simple_boundary_optimizer.py).
`text[-overlap_pos:]` with `0 < overlap_pos < len text` is the final
`overlap_pos` characters, i.e. `text.drop (text.length - overlap_pos)`;
`sentences[-1]` is `getLastD` (a `re.split` result is never empty). -/
def createOverlap (tok : Tokenizer) (text : List Char) (overlap_tokens : Int) :
    List Char :=
  if text = [] ∨ overlap_tokens ≤ 0 then []
  else
    let overlap_pos := find_token_boundary tok text overlap_tokens
    if text.length ≤ overlap_pos then text
    else
      let overlap_text :=
        if 0 < overlap_pos then text.drop (text.length - overlap_pos) else []
      let sentences := splitSentences overlap_text
      if 1 < sentences.length then
        if sentences.getLastD [] ≠ [] then sentences.getLastD [] else overlap_text
      else overlap_text

/-- `'\n\n' in context` (substring containment of two newlines). -/
def hasParBreak : List Char → Bool
  | a :: b :: rest => (a = '\n' && b = '\n') || hasParBreak (b :: rest)
  | _ => false

/-- `re.search(r'[.!?]\s', context) is not None`: some punctuation character
directly followed by one whitespace character. -/
def hasSentBreak : List Char → Bool
  | a :: b :: rest => (isPunct a && pyIsSpace b) || hasSentBreak (b :: rest)
  | _ => false

/-- `BoundaryOptimizer.get_boundary_info` (simple_boundary_optimizer.py).
`position` is a Python int, so it is `Int` here; the interior branch has
`1 ≤ position ≤ len - 1` where `text[max(0, position-5):position]` is
`(text.take p).drop (p - 5)` and `text[position:position+5]` is
`(text.drop p).take 5`. -/
def getBoundaryInfo (text : List Char) (position : Int) : BoundaryInfo :=
  if position ≤ 0 ∨ (text.length : Int) ≤ position then
    ⟨position, "edge", 0, none, none⟩
  else
    let p := position.toNat
    let before := (text.take p).drop (p - 5)
    let after := (text.drop p).take 5
    let context := before ++ after
    if hasParBreak context then ⟨position, "paragraph", 1, some before, some after⟩
    else if hasSentBreak context then
      ⟨position, "sentence", 8/10, some before, some after⟩
    else if context.contains '\n' then
      ⟨position, "line", 6/10, some before, some after⟩
    else if context.contains ' ' then
      ⟨position, "word", 4/10, some before, some after⟩
    else ⟨position, "character", 1/10, some before, some after⟩

/-- The `while remaining_text.strip():` loop of `TextChunker.chunk_text`
(text_chunker.py), with the loop state (remaining text, chunk id, running
character position, accumulated chunks) passed explicitly.  The statement
order matches the source: extract and trim the chunk (break when empty),
compute overlap characters for non-first chunks, classify the kind, build the
chunk, append it, advance, and break on the `boundary_pos == 0` safety check
(which fires only after the chunk was appended). -/
def chunkLoop (tok : Tokenizer) (cfg : ChunkingConfig) (remaining : List Char)
    (chunk_id cur_pos : Nat) (chunks : List TextChunk) : List TextChunk :=
  if pyStrip remaining = [] then chunks
  else
    let target := get_effective_chunk_size cfg
    let bp := findOptimalBoundary tok remaining target
    let ctext := pyStrip (remaining.take bp.1)
    if ctext = [] then chunks
    else
      let overlap_chars :=
        if 0 < chunk_id ∧ 0 < cfg.overlap_tokens then
          (createOverlap tok ctext cfg.overlap_tokens).length
        else 0
      let remaining_after := pyStrip (remaining.drop bp.1)
      let ctype :=
        if chunk_id = 0 then ChunkType.FIRST
        else if remaining_after = [] then ChunkType.FINAL
        else ChunkType.MIDDLE
      let chunk : TextChunk :=
        { chunk_id := chunk_id
          chunk_type := ctype
          text := ctext
          token_count := count_tokens tok ctext
          start_position := cur_pos
          end_position := cur_pos + ctext.length
          overlap_with_previous := overlap_chars
          boundary_info := getBoundaryInfo remaining (bp.1 : Int)
          boundary_score := bp.2 }
      if bp.1 = 0 then chunks ++ [chunk]
      else chunkLoop tok cfg remaining_after (chunk_id + 1) (cur_pos + bp.1)
        (chunks ++ [chunk])
termination_by remaining.length
decreasing_by
  rename_i hne _ hpos
  have h1 : ∀ s : List Char, (pyStrip s).length ≤ s.length := by
    intro s
    unfold pyStrip pyRStrip pyLStrip
    have ha := (List.dropWhile_suffix
      (l := (s.dropWhile pyIsSpace).reverse) pyIsSpace).length_le
    have hb := (List.dropWhile_suffix (l := s) pyIsSpace).length_le
    simp only [List.length_reverse] at ha ⊢
    omega
  have h2 : remaining ≠ [] := by
    intro h
    exact hne (by simp [h, pyStrip, pyLStrip, pyRStrip])
  have h3 : 0 < remaining.length := List.length_pos.mpr h2
  have h4 := h1 ((remaining.drop
    (findOptimalBoundary tok remaining (get_effective_chunk_size cfg)).1))
  simp only [List.length_drop] at h4
  have hbp : bp.1 = (findOptimalBoundary tok remaining
    (get_effective_chunk_size cfg)).1 := rfl
  omega

/-- `TextChunker.chunk_text` (text_chunker.py): raise on blank input, else run
the chunking loop from the whole text with `chunk_id = 0`,
`current_position = 0` and no accumulated chunks. -/
def chunk_text (tok : Tokenizer) (cfg : ChunkingConfig) (text : List Char) :
    Except String (List TextChunk) :=
  if pyStrip text = [] then Except.error ("Input text cannot be empty")
  else Except.ok (chunkLoop tok cfg text 0 0 [])

/-- The chunking loop again, with an explicit iteration budget instead of
well-founded recursion: `none` means the budget was exhausted.  The theorem
for the termination claim shows a budget of `remaining.length + 1` always
suffices, i.e. the while-loop of `chunk_text` performs finitely many
iterations. -/
def chunkLoopFuel (tok : Tokenizer) (cfg : ChunkingConfig) :
    Nat → List Char → Nat → Nat → List TextChunk → Option (List TextChunk)
  | 0, _, _, _, _ => none
  | fuel + 1, remaining, chunk_id, cur_pos, chunks =>
    if pyStrip remaining = [] then some chunks
    else
      let target := get_effective_chunk_size cfg
      let bp := findOptimalBoundary tok remaining target
      let ctext := pyStrip (remaining.take bp.1)
      if ctext = [] then some chunks
      else
        let overlap_chars :=
          if 0 < chunk_id ∧ 0 < cfg.overlap_tokens then
            (createOverlap tok ctext cfg.overlap_tokens).length
          else 0
        let remaining_after := pyStrip (remaining.drop bp.1)
        let ctype :=
          if chunk_id = 0 then ChunkType.FIRST
          else if remaining_after = [] then ChunkType.FINAL
          else ChunkType.MIDDLE
        let chunk : TextChunk :=
          { chunk_id := chunk_id
            chunk_type := ctype
            text := ctext
            token_count := count_tokens tok ctext
            start_position := cur_pos
            end_position := cur_pos + ctext.length
            overlap_with_previous := overlap_chars
            boundary_info := getBoundaryInfo remaining (bp.1 : Int)
            boundary_score := bp.2 }
        if bp.1 = 0 then some (chunks ++ [chunk])
        else chunkLoopFuel tok cfg fuel remaining_after (chunk_id + 1)
          (cur_pos + bp.1) (chunks ++ [chunk])

/-- Per-character token cost of the concrete test tokenizer. -/
def chCost (c : Char) : Nat :=
  if c = 'a' then 1 else if c = 'b' then 10 else if c = 'z' then 100 else 0

/-- A concrete tokenizer used in witnesses and counterexamples: the token
count of a string is the sum of its per-character costs.  Being additive over
concatenation with non-negative summands, it satisfies the documented
tokenizer precondition (prefix token counts are monotonically non-decreasing)
and is in fact monotone under contiguous-substring containment. -/
def tokCost : Tokenizer := fun s => (s.map chCost).sum

/-- The boundary classification exactly as the specification words it
(spec-side definition, to be compared with `getBoundaryInfo`): positions at an
extreme edge (0 or the text length, or beyond) are "edge" with score 0.0
regardless of content; otherwise the ±5-character context is classified in
priority order — a blank-line pattern (two consecutive newlines occurring as a
contiguous substring) scores 1.0, then punctuation followed by whitespace
scores 0.8, then a line break scores 0.6, then a word break (space present)
scores 0.4, otherwise character-level 0.1. -/
def getBoundaryInfoSpec (text : List Char) (position : Int) : BoundaryInfo :=
  if position ≤ 0 ∨ (text.length : Int) ≤ position then
    ⟨position, "edge", 0, none, none⟩
  else
    let p := position.toNat
    let before := (text.take p).drop (p - 5)
    let after := (text.drop p).take 5
    let context := before ++ after
    if ['\n', '\n'] <:+: context then
      ⟨position, "paragraph", 1, some before, some after⟩
    else if (context.zip context.tail).any (fun pr => isPunct pr.1 && pyIsSpace pr.2) then
      ⟨position, "sentence", 8/10, some before, some after⟩
    else if '\n' ∈ context then
      ⟨position, "line", 6/10, some before, some after⟩
    else if ' ' ∈ context then
      ⟨position, "word", 4/10, some before, some after⟩
    else ⟨position, "character", 1/10, some before, some after⟩

/-- Concrete configuration for the C1 counterexample:
`max_chunk_tokens = 10`, `overlap_tokens = 3` (valid). -/
def cfg1cx : ChunkingConfig := ⟨10, 3, "cl100k_base"⟩

/-- Concrete text for the C1 counterexample: `"ab\n\n"` followed by 26 spaces.
Under `tokCost` it counts 11 tokens, the effective chunk size is 7, and the
paragraph break after `"ab"` is accepted thanks to the 50-token tolerance. -/
def text1cx : List Char := ['a', 'b', '\n', '\n'] ++ List.replicate 26 ' '

/-- Concrete configuration for the C3 counterexample:
`max_chunk_tokens = 10`, `overlap_tokens = 5` (valid). -/
def cfg3cx : ChunkingConfig := ⟨10, 5, "cl100k_base"⟩

/-- Concrete text for the C3 counterexample: 8 `'a'`s = 8 tokens under
`tokCost`, below `max_chunk_tokens = 10` but above the effective chunk size
`10 - 5 = 5`. -/
def text3cx : List Char := List.replicate 8 'a'

/-- Concrete configuration for the C5 counterexample:
`max_chunk_tokens = 10`, `overlap_tokens = 0` (valid). -/
def cfg5cx : ChunkingConfig := ⟨10, 0, "cl100k_base"⟩

/-- Concrete text for the C5 counterexample: 12 cheap characters followed by
two characters costing 100 tokens each, so the loop eventually reaches
remaining text `"zz"` on which the boundary position is 0 and the run stops
after a MIDDLE chunk, never emitting a FINAL one. -/
def text5cx : List Char := List.replicate 12 'a' ++ ['z', 'z']

/-- Concrete configuration used by the C4 witness. -/
def cfg4w : ChunkingConfig := ⟨10, 0, "cl100k_base"⟩

/-- Concrete configuration used by the C1 and C3 witnesses. -/
def cfgW : ChunkingConfig := ⟨10, 5, "cl100k_base"⟩

/-! Helper lemmas. -/

theorem pyLStrip_suffix (s : List Char) : pyLStrip s <:+ s :=
  List.dropWhile_suffix pyIsSpace

theorem pyRStrip_isPre (s : List Char) : pyRStrip s <+: s := by
  have h1 : s.reverse.dropWhile pyIsSpace <:+ s.reverse :=
    List.dropWhile_suffix pyIsSpace
  have h2 : ((s.reverse.dropWhile pyIsSpace).reverse).reverse <:+ s.reverse := by
    simpa using h1
  have h3 := List.reverse_suffix.mp h2
  exact h3

theorem pyStrip_infix_self (s : List Char) : pyStrip s <:+: s := by
  obtain ⟨t, ht⟩ := pyRStrip_isPre (pyLStrip s)
  obtain ⟨u, hu⟩ := pyLStrip_suffix s
  refine ⟨u, t, ?_⟩
  calc u ++ pyStrip s ++ t = u ++ (pyRStrip (pyLStrip s) ++ t) := by
        rw [pyStrip, List.append_assoc]
    _ = u ++ pyLStrip s := by rw [ht]
    _ = s := hu

theorem pyStrip_length_le (s : List Char) : (pyStrip s).length ≤ s.length :=
  (pyStrip_infix_self s).length_le

theorem pyStrip_nil : pyStrip [] = [] := rfl

theorem pyStrip_ne_nil_of_arg {s : List Char} (h : pyStrip s ≠ []) : s ≠ [] := by
  intro hs
  exact h (by simp [hs, pyStrip_nil])

theorem count_tokens_tokCost (s : List Char) :
    count_tokens tokCost s = (s.map chCost).sum := by
  cases s <;> simp [count_tokens, tokCost]

theorem tokCost_sub_mono {s t : List Char} (h : s <:+: t) :
    count_tokens tokCost s ≤ count_tokens tokCost t := by
  obtain ⟨u, v, huv⟩ := h
  rw [count_tokens_tokCost, count_tokens_tokCost, ← huv]
  simp only [List.map_append, List.sum_append]
  omega

theorem tokCost_take_mono (text : List Char) (i j : Nat) (h : i ≤ j) :
    count_tokens tokCost (text.take i) ≤ count_tokens tokCost (text.take j) := by
  have h1 : text.take i = (text.take j).take i := by
    rw [List.take_take, min_eq_left h]
  have h2 : text.take i <:+: text.take j := by
    rw [h1]
    exact ⟨[], (text.take j).drop i, by simp⟩
  exact tokCost_sub_mono h2

theorem findBoundaryLoop_take_le (tok : Tokenizer) (text : List Char)
    (target : Int) (l r best : Int)
    (hP : (count_tokens tok (text.take best.toNat) : Int) ≤ target) :
    (count_tokens tok
      (text.take (findBoundaryLoop tok text target l r best).toNat) : Int)
      ≤ target := by
  rw [findBoundaryLoop]
  by_cases hcond : l ≤ r
  · simp only [dif_pos hcond]
    by_cases hPmid :
        (count_tokens tok (text.take ((l + r) / 2).toNat) : Int) ≤ target
    · simp only [if_pos hPmid]
      exact findBoundaryLoop_take_le tok text target ((l + r) / 2 + 1) r
        ((l + r) / 2) hPmid
    · simp only [if_neg hPmid]
      exact findBoundaryLoop_take_le tok text target l ((l + r) / 2 - 1) best hP
  · simp only [dif_neg hcond]
    exact hP
termination_by (r + 1 - l).toNat
decreasing_by
  all_goals omega

theorem find_token_boundary_take_le (tok : Tokenizer) (text : List Char)
    (target : Int) (htarget : 0 ≤ target) :
    (count_tokens tok (text.take (find_token_boundary tok text target)) : Int)
      ≤ target := by
  unfold find_token_boundary
  by_cases hnil : text = []
  · simp [hnil, count_tokens, htarget]
  · simp only [if_neg hnil]
    by_cases hfit : (count_tokens tok text : Int) ≤ target
    · simp only [if_pos hfit]
      simpa [List.take_length] using hfit
    · simp only [if_neg hfit]
      exact findBoundaryLoop_take_le tok text target 0 text.length 0
        (by simpa [count_tokens] using htarget)

theorem findBoundaryLoop_spec (tok : Tokenizer) (text : List Char) (target : Int)
    (hmono : ∀ i j : Nat, i ≤ j →
      count_tokens tok (text.take i) ≤ count_tokens tok (text.take j))
    (l r best : Int) (hl : 0 ≤ l) (hr : r ≤ (text.length : Int))
    (hb0 : 0 ≤ best) (hbl : best ≤ l) (hbn : best ≤ (text.length : Int))
    (hP : (count_tokens tok (text.take best.toNat) : Int) ≤ target)
    (hJ : ∀ m : Nat, m ≤ text.length →
      (count_tokens tok (text.take m) : Int) ≤ target →
      ((m : Int) ≤ best ∨ (l ≤ (m : Int) ∧ (m : Int) ≤ r))) :
    0 ≤ findBoundaryLoop tok text target l r best ∧
    findBoundaryLoop tok text target l r best ≤ (text.length : Int) ∧
    (count_tokens tok
      (text.take (findBoundaryLoop tok text target l r best).toNat) : Int)
      ≤ target ∧
    ∀ m : Nat, m ≤ text.length →
      (count_tokens tok (text.take m) : Int) ≤ target →
      (m : Int) ≤ findBoundaryLoop tok text target l r best := by
  rw [findBoundaryLoop]
  by_cases hcond : l ≤ r
  · simp only [dif_pos hcond]
    have hml : l ≤ (l + r) / 2 := by omega
    have hmr : (l + r) / 2 ≤ r := by omega
    by_cases hPmid :
        (count_tokens tok (text.take ((l + r) / 2).toNat) : Int) ≤ target
    · simp only [if_pos hPmid]
      refine findBoundaryLoop_spec tok text target hmono ((l + r) / 2 + 1) r
        ((l + r) / 2) (by omega) hr (by omega) (by omega) (by omega) hPmid ?_
      intro m hm hPm
      rcases hJ m hm hPm with h | ⟨h1, h2⟩
      · left
        omega
      · by_cases hsplit : (m : Int) ≤ (l + r) / 2
        · left
          exact hsplit
        · right
          omega
    · simp only [if_neg hPmid]
      refine findBoundaryLoop_spec tok text target hmono l ((l + r) / 2 - 1)
        best hl (by omega) hb0 hbl hbn hP ?_
      intro m hm hPm
      have hlt : (m : Int) < (l + r) / 2 := by
        by_contra hge
        push_neg at hge
        have hge2 : ((l + r) / 2).toNat ≤ m := by omega
        have := hmono ((l + r) / 2).toNat m hge2
        omega
      rcases hJ m hm hPm with h | ⟨h1, h2⟩
      · left
        exact h
      · right
        omega
  · simp only [dif_neg hcond]
    refine ⟨hb0, hbn, hP, ?_⟩
    intro m hm hPm
    rcases hJ m hm hPm with h | ⟨h1, h2⟩
    · exact h
    · omega
termination_by (r + 1 - l).toNat
decreasing_by
  all_goals omega

/-- C2: for every text and target (with the tokenizer's prefix token counts
monotonically non-decreasing in the prefix length, the documented
precondition), `find_token_boundary` returns `len(text)` when
`count_tokens(text) <= target`, and otherwise the maximal character offset in
`[0, len(text)]` whose prefix has token count `<= target`. -/
theorem find_token_boundary_correct (tok : Tokenizer) (text : List Char)
    (target : Nat)
    (hmono : ∀ i j : Nat, i ≤ j →
      count_tokens tok (text.take i) ≤ count_tokens tok (text.take j)) :
    (count_tokens tok text ≤ target →
      find_token_boundary tok text (target : Int) = text.length) ∧
    (target < count_tokens tok text →
      find_token_boundary tok text (target : Int) ≤ text.length ∧
      count_tokens tok (text.take (find_token_boundary tok text (target : Int)))
        ≤ target ∧
      ∀ m : Nat, m ≤ text.length → count_tokens tok (text.take m) ≤ target →
        m ≤ find_token_boundary tok text (target : Int)) := by
  constructor
  · intro hfit
    unfold find_token_boundary
    by_cases hnil : text = []
    · simp [hnil]
    · rw [if_neg hnil, if_pos (by exact_mod_cast hfit)]
  · intro hgt
    have hnil : text ≠ [] := by
      intro h
      rw [h] at hgt
      simp [count_tokens] at hgt
    have hnotfit : ¬ (count_tokens tok text : Int) ≤ (target : Int) := by
      exact_mod_cast not_le.mpr hgt
    unfold find_token_boundary
    rw [if_neg hnil, if_neg hnotfit]
    obtain ⟨h0, hlen, hP, hmax⟩ := findBoundaryLoop_spec tok text target hmono
      0 text.length 0 le_rfl le_rfl le_rfl le_rfl (by exact_mod_cast Nat.zero_le _)
      (by simp [count_tokens])
      (fun m hm _ => Or.inr ⟨by exact_mod_cast Nat.zero_le m, by exact_mod_cast hm⟩)
    refine ⟨by omega, ?_, ?_⟩
    · exact_mod_cast hP
    · intro m hm hPm
      have := hmax m hm (by exact_mod_cast hPm)
      omega

/-- Witness for C2: with the concrete additive tokenizer on `"aaa"` and
target 5, the whole text fits and the boundary is the full length. -/
theorem find_token_boundary_correct_witness :
    find_token_boundary tokCost (List.replicate 3 'a') (5 : Int) = 3 :=
  (find_token_boundary_correct tokCost (List.replicate 3 'a') 5
    (tokCost_take_mono (List.replicate 3 'a'))).1 (by decide)

/-- C6: constructing a `ChunkingConfig` raises exactly when
`max_chunk_tokens <= 0`, `overlap_tokens < 0`, or
`overlap_tokens >= max_chunk_tokens`; in particular `(50, 50)` raises.  The
check is performed by the constructor itself (`mkChunkingConfig`), before any
chunking function is involved. -/
theorem mkChunkingConfig_error_iff :
    (∀ max_t overlap_t : Int, ∀ name : String,
      (∃ e, mkChunkingConfig max_t overlap_t name = Except.error e) ↔
        (max_t ≤ 0 ∨ overlap_t < 0 ∨ overlap_t ≥ max_t)) ∧
    (∃ e, mkChunkingConfig 50 50 "cl100k_base" = Except.error e) := by
  constructor
  · intro m o n
    unfold mkChunkingConfig
    split_ifs with h1 h2 h3 <;> simp <;> omega
  · exact ⟨"overlap_tokens must be less than max_chunk_tokens", by rfl⟩

/-- C7: `chunk_text` raises the input error exactly when the input text is
blank (empty after trimming); an `Except.error` result carries no chunk
sequence, so nothing partial is returned in that case. -/
theorem chunk_text_input_error_iff (tok : Tokenizer) (cfg : ChunkingConfig)
    (text : List Char) :
    chunk_text tok cfg text = Except.error ("Input text cannot be empty") ↔
      pyStrip text = [] := by
  unfold chunk_text
  split_ifs with h
  · simp [h]
  · simp [h]

/-- Counterexample for C9: the empty string's token count is at most the
target, yet `find_optimal_boundary` returns `(0, 0.0)`, not
`(len text, 1.0) = (0, 1.0)` — the `if not text` early return takes
precedence over the fits-entirely return. -/
theorem findOptimalBoundary_empty_cx :
    count_tokens tokCost [] ≤ 5 ∧
    findOptimalBoundary tokCost [] (5 : Int) ≠ (0, 1) := by
  constructor
  · decide
  · have h2 : findOptimalBoundary tokCost [] (5 : Int) = (0, 0) := by
      simp [findOptimalBoundary]
    rw [h2]
    intro h
    have h3 : (0 : Rat) = 1 := congrArg Prod.snd h
    exact absurd h3 (by norm_num)

/-- C9 (amended): when the text's total token count is at most
`target_tokens`, `find_optimal_boundary` returns `(len text, 1.0)` for
non-empty text, but `(0, 0.0)` for the empty string. -/
theorem findOptimalBoundary_fits (tok : Tokenizer) (text : List Char)
    (target : Int) (hfit : (count_tokens tok text : Int) ≤ target) :
    findOptimalBoundary tok text target =
      if text = [] then (0, 0) else (text.length, 1) := by
  unfold findOptimalBoundary
  by_cases hnil : text = []
  · simp [hnil]
  · rw [if_neg hnil, if_pos hfit, if_neg hnil]

/-- Witness for C9's amended theorem at a concrete non-empty input. -/
theorem findOptimalBoundary_fits_witness :
    findOptimalBoundary tokCost ['a'] (5 : Int) = (1, 1) := by
  have h := findOptimalBoundary_fits tokCost ['a'] 5 (by decide)
  simpa using h

theorem getLastD_irrel (L : List (List Char)) (d1 d2 : List Char) (h : L ≠ []) :
    L.getLastD d1 = L.getLastD d2 := by
  rw [List.getLastD_eq_getLast?, List.getLastD_eq_getLast?]
  cases hq : L.getLast? with
  | none => exact absurd (List.getLast?_eq_none_iff.mp hq) h
  | some a => simp

theorem getLastD_cons_of_ne (x : List Char) (L : List (List Char)) (h : L ≠ []) :
    (x :: L).getLastD [] = L.getLastD [] := by
  cases L with
  | nil => exact absurd rfl h
  | cons a t =>
    rw [List.getLastD_cons]
    exact getLastD_irrel (a :: t) a [] (by simp)

theorem splitSent_ne_nil : ∀ n : Nat, ∀ l : List Char, l.length ≤ n →
    (∀ cur : List Char, splitSentGo cur l ≠ []) ∧ splitSentSkip l ≠ [] := by
  intro n
  induction n with
  | zero =>
    intro l hl
    have hnil : l = [] := by
      cases l with
      | nil => rfl
      | cons c rest => simp at hl
    subst hnil
    constructor
    · intro cur
      simp [splitSentGo]
    · simp [splitSentSkip]
  | succ n ih =>
    intro l hl
    cases l with
    | nil =>
      constructor
      · intro cur
        simp [splitSentGo]
      · simp [splitSentSkip]
    | cons c rest =>
      have hrest : rest.length ≤ n := by
        simp at hl
        omega
      constructor
      · intro cur
        rw [splitSentGo]
        by_cases hm : isPunct c && spaceAtHead rest
        · simp [hm]
        · simp only [hm, if_false, Bool.false_eq_true]
          exact (ih rest hrest).1 (c :: cur)
      · rw [splitSentSkip]
        by_cases hsp : pyIsSpace c
        · simp only [hsp, if_true]
          exact (ih rest hrest).2
        · simp only [hsp, if_false, Bool.false_eq_true]
          by_cases hm : isPunct c && spaceAtHead rest
          · simp [hm]
          · simp only [hm, if_false, Bool.false_eq_true]
            exact (ih rest hrest).1 [c]

theorem splitSent_last_suffix : ∀ n : Nat, ∀ l : List Char, l.length ≤ n →
    (∀ cur : List Char, (splitSentGo cur l).getLastD [] = cur.reverse ++ l ∨
      (splitSentGo cur l).getLastD [] <:+ l) ∧
    (splitSentSkip l).getLastD [] <:+ l := by
  intro n
  induction n with
  | zero =>
    intro l hl
    have hnil : l = [] := by
      cases l with
      | nil => rfl
      | cons c rest => simp at hl
    subst hnil
    constructor
    · intro cur
      left
      simp [splitSentGo]
    · simp [splitSentSkip]
  | succ n ih =>
    intro l hl
    cases l with
    | nil =>
      constructor
      · intro cur
        left
        simp [splitSentGo]
      · simp [splitSentSkip]
    | cons c rest =>
      have hrest : rest.length ≤ n := by
        simp at hl
        omega
      constructor
      · intro cur
        rw [splitSentGo]
        by_cases hm : isPunct c && spaceAtHead rest
        · simp only [hm, if_true]
          right
          rw [getLastD_cons_of_ne _ _ ((splitSent_ne_nil n rest hrest).2)]
          exact ((ih rest hrest).2).trans (List.suffix_cons c rest)
        · simp only [hm, if_false, Bool.false_eq_true]
          rcases (ih rest hrest).1 (c :: cur) with h | h
          · left
            rw [h]
            simp
          · right
            exact h.trans (List.suffix_cons c rest)
      · rw [splitSentSkip]
        by_cases hsp : pyIsSpace c
        · simp only [hsp, if_true]
          exact ((ih rest hrest).2).trans (List.suffix_cons c rest)
        · simp only [hsp, if_false, Bool.false_eq_true]
          by_cases hm : isPunct c && spaceAtHead rest
          · simp only [hm, if_true]
            rw [getLastD_cons_of_ne _ _ ((splitSent_ne_nil n rest hrest).2)]
            exact ((ih rest hrest).2).trans (List.suffix_cons c rest)
          · simp only [hm, if_false, Bool.false_eq_true]
            rcases (ih rest hrest).1 [c] with h | h
            · rw [h]
              simp
            · exact h.trans (List.suffix_cons c rest)

theorem splitSentences_last_suffix (s : List Char) :
    (splitSentences s).getLastD [] <:+ s := by
  rcases (splitSent_last_suffix s.length s le_rfl).1 [] with h | h
  · rw [splitSentences, h]
    simp
  · exact h

/-- C10: the string returned by `create_overlap(text, overlap_tokens)` is a
contiguous suffix of `text` (possibly empty or the whole text), and
consequently its length never exceeds `len(text)`. -/
theorem createOverlap_suffix (tok : Tokenizer) (text : List Char)
    (overlap_tokens : Int) :
    createOverlap tok text overlap_tokens <:+ text ∧
    (createOverlap tok text overlap_tokens).length ≤ text.length := by
  have hsuf : createOverlap tok text overlap_tokens <:+ text := by
    unfold createOverlap
    dsimp only
    split_ifs
    all_goals first
      | exact List.nil_suffix
      | exact List.suffix_refl text
      | exact List.drop_suffix _ text
      | exact (splitSentences_last_suffix _).trans (List.drop_suffix _ text)
  exact ⟨hsuf, hsuf.length_le⟩

theorem hasParBreak_iff (c : List Char) :
    hasParBreak c = true ↔ ['\n', '\n'] <:+: c := by
  induction c with
  | nil =>
    simp [hasParBreak]
  | cons a rest ih =>
    cases rest with
    | nil =>
      simp only [hasParBreak, Bool.false_eq_true, false_iff]
      intro h
      have := h.length_le
      simp at this
    | cons b rest2 =>
      rw [show hasParBreak (a :: b :: rest2) =
        ((a = '\n' && b = '\n') || hasParBreak (b :: rest2)) from rfl]
      rw [List.infix_cons_iff]
      constructor
      · intro h
        rcases Bool.or_eq_true_iff.mp h with h1 | h2
        · left
          have ha : a = '\n' := by
            have := Bool.and_eq_true_iff.mp h1
            exact of_decide_eq_true this.1
          have hb : b = '\n' := by
            have := Bool.and_eq_true_iff.mp h1
            exact of_decide_eq_true this.2
          rw [ha, hb]
          exact ⟨rest2, rfl⟩
        · right
          exact ih.mp h2
      · intro h
        rcases h with h1 | h2
        · rcases (List.cons_prefix_cons.mp h1) with ⟨ha, h3⟩
          rcases (List.cons_prefix_cons.mp h3) with ⟨hb, _⟩
          apply Bool.or_eq_true_iff.mpr
          left
          rw [← ha, ← hb]
          simp
        · exact Bool.or_eq_true_iff.mpr (Or.inr (ih.mpr h2))

theorem hasSentBreak_iff (c : List Char) :
    hasSentBreak c = true ↔
      ((c.zip c.tail).any fun pr => isPunct pr.1 && pyIsSpace pr.2) = true := by
  induction c with
  | nil =>
    simp [hasSentBreak]
  | cons a rest ih =>
    cases rest with
    | nil =>
      simp [hasSentBreak]
    | cons b rest2 =>
      rw [show hasSentBreak (a :: b :: rest2) =
        ((isPunct a && pyIsSpace b) || hasSentBreak (b :: rest2)) from rfl]
      simp only [List.tail_cons, List.zip_cons_cons, List.any_cons,
        Bool.or_eq_true] at ih ⊢
      rw [ih]

/-- C8: `get_boundary_info` computes exactly the spec-side classification
`getBoundaryInfoSpec`: edge positions (≤ 0 or ≥ len, i.e. 0, the length, or
beyond) give type "edge" with score 0.0 regardless of content, and interior
positions are classified on the ±5-character context in priority order —
blank-line pattern 1.0, punctuation-followed-by-whitespace 0.8, line break
0.6, word break 0.4, otherwise character-level 0.1. -/
theorem getBoundaryInfo_eq_spec (text : List Char) (position : Int) :
    getBoundaryInfo text position = getBoundaryInfoSpec text position := by
  unfold getBoundaryInfo getBoundaryInfoSpec
  by_cases hedge : position ≤ 0 ∨ (text.length : Int) ≤ position
  · rw [if_pos hedge, if_pos hedge]
  · rw [if_neg hedge, if_neg hedge]
    dsimp only
    by_cases hp : hasParBreak (((text.take position.toNat).drop
        (position.toNat - 5)) ++ ((text.drop position.toNat).take 5)) = true
    · rw [if_pos hp, if_pos ((hasParBreak_iff _).mp hp)]
    · rw [if_neg hp, if_neg (fun hinf => hp ((hasParBreak_iff _).mpr hinf))]
      by_cases hs : hasSentBreak (((text.take position.toNat).drop
          (position.toNat - 5)) ++ ((text.drop position.toNat).take 5)) = true
      · rw [if_pos hs, if_pos ((hasSentBreak_iff _).mp hs)]
      · rw [if_neg hs, if_neg (fun hany => hs ((hasSentBreak_iff _).mpr hany))]
        by_cases hl : (((text.take position.toNat).drop
            (position.toNat - 5)) ++
            ((text.drop position.toNat).take 5)).contains '\n' = true
        · have hl2 : '\n' ∈ ((text.take position.toNat).drop
              (position.toNat - 5)) ++ ((text.drop position.toNat).take 5) := by
            simpa [List.contains] using hl
          rw [if_pos hl, if_pos hl2]
        · have hl2 : ¬ '\n' ∈ ((text.take position.toNat).drop
              (position.toNat - 5)) ++ ((text.drop position.toNat).take 5) :=
            fun hmem => hl (by simpa [List.contains] using hmem)
          rw [if_neg hl, if_neg hl2]
          by_cases hw : (((text.take position.toNat).drop
              (position.toNat - 5)) ++
              ((text.drop position.toNat).take 5)).contains ' ' = true
          · have hw2 : ' ' ∈ ((text.take position.toNat).drop
                (position.toNat - 5)) ++ ((text.drop position.toNat).take 5) := by
              simpa [List.contains] using hw
            rw [if_pos hw, if_pos hw2]
          · have hw2 : ¬ ' ' ∈ ((text.take position.toNat).drop
                (position.toNat - 5)) ++ ((text.drop position.toNat).take 5) :=
              fun hmem => hw (by simpa [List.contains] using hmem)
            rw [if_neg hw, if_neg hw2]

theorem chunkLoop_append (tok : Tokenizer) (cfg : ChunkingConfig)
    (remaining : List Char) (chunk_id cur_pos : Nat) (chunks : List TextChunk) :
    chunkLoop tok cfg remaining chunk_id cur_pos chunks =
      chunks ++ chunkLoop tok cfg remaining chunk_id cur_pos [] := by
  by_cases h1 : pyStrip remaining = []
  · rw [chunkLoop, chunkLoop, if_pos h1, if_pos h1]
    simp
  · rw [chunkLoop, chunkLoop, if_neg h1, if_neg h1]
    dsimp only
    by_cases h2 : pyStrip (remaining.take
        (findOptimalBoundary tok remaining (get_effective_chunk_size cfg)).1) = []
    · rw [if_pos h2, if_pos h2]
      simp
    · rw [if_neg h2, if_neg h2]
      by_cases h3 :
          (findOptimalBoundary tok remaining (get_effective_chunk_size cfg)).1 = 0
      · rw [if_pos h3, if_pos h3]
        simp
      · rw [if_neg h3, if_neg h3]
        rw [chunkLoop_append tok cfg _ _ _ (chunks ++ _),
          chunkLoop_append tok cfg _ _ _ ([] ++ _)]
        simp
termination_by remaining.length
decreasing_by
  all_goals
    have h4 := pyStrip_length_le (remaining.drop
      (findOptimalBoundary tok remaining (get_effective_chunk_size cfg)).1)
    all_goals simp only [List.length_drop] at h4
    all_goals have h5 : remaining ≠ [] := pyStrip_ne_nil_of_arg h1
    all_goals have h6 : 0 < remaining.length := List.length_pos.mpr h5
    all_goals omega

theorem chunkLoopFuel_adequate (tok : Tokenizer) (cfg : ChunkingConfig) :
    ∀ fuel : Nat, ∀ remaining : List Char, ∀ chunk_id cur_pos : Nat,
    ∀ chunks : List TextChunk, remaining.length < fuel →
    chunkLoopFuel tok cfg fuel remaining chunk_id cur_pos chunks =
      some (chunkLoop tok cfg remaining chunk_id cur_pos chunks) := by
  intro fuel
  induction fuel with
  | zero =>
    intro r _ _ _ h
    omega
  | succ n ih =>
    intro remaining chunk_id cur_pos chunks hlen
    rw [chunkLoopFuel, chunkLoop]
    by_cases h1 : pyStrip remaining = []
    · rw [if_pos h1, if_pos h1]
    · rw [if_neg h1, if_neg h1]
      dsimp only
      by_cases h2 : pyStrip (remaining.take
          (findOptimalBoundary tok remaining (get_effective_chunk_size cfg)).1) = []
      · rw [if_pos h2, if_pos h2]
      · rw [if_neg h2, if_neg h2]
        by_cases h3 :
            (findOptimalBoundary tok remaining (get_effective_chunk_size cfg)).1 = 0
        · rw [if_pos h3, if_pos h3]
        · rw [if_neg h3, if_neg h3]
          apply ih
          have h4 := pyStrip_length_le (remaining.drop
            (findOptimalBoundary tok remaining (get_effective_chunk_size cfg)).1)
          simp only [List.length_drop] at h4
          have h5 : remaining ≠ [] := pyStrip_ne_nil_of_arg h1
          have h6 : 0 < remaining.length := List.length_pos.mpr h5
          omega

/-- C4: for every tokenizer (a total function), configuration, and input,
`chunk_text` terminates and never discards what was built.  Part 1: the loop
completes within `len(remaining) + 1` iterations (the fuelled variant never
exhausts that budget).  Part 2: whatever chunks are accumulated are a prefix
of the final result — every terminal branch (empty remaining text, empty
extracted chunk, or a zero-length boundary) returns the chunks built so far.
Part 3: on non-blank input the call returns `ok` of the loop's result, while
blank input raises (claim C7's theorem). -/
theorem chunk_text_terminates (tok : Tokenizer) (cfg : ChunkingConfig) :
    (∀ remaining : List Char, ∀ chunk_id cur_pos : Nat,
      ∀ chunks : List TextChunk,
      chunkLoopFuel tok cfg (remaining.length + 1) remaining chunk_id cur_pos
        chunks = some (chunkLoop tok cfg remaining chunk_id cur_pos chunks)) ∧
    (∀ remaining : List Char, ∀ chunk_id cur_pos : Nat,
      ∀ chunks : List TextChunk,
      chunkLoop tok cfg remaining chunk_id cur_pos chunks =
        chunks ++ chunkLoop tok cfg remaining chunk_id cur_pos []) ∧
    (∀ text : List Char, pyStrip text ≠ [] →
      chunk_text tok cfg text = Except.ok (chunkLoop tok cfg text 0 0 [])) := by
  refine ⟨?_, ?_, ?_⟩
  · intro r chunk_id cur_pos cs
    exact chunkLoopFuel_adequate tok cfg (r.length + 1) r chunk_id cur_pos cs
      (by omega)
  · intro r chunk_id cur_pos cs
    exact chunkLoop_append tok cfg r chunk_id cur_pos cs
  · intro t ht
    unfold chunk_text
    rw [if_neg ht]

/-- Witness for C4 at a concrete input: the loop on `"a"` finishes within its
length-plus-one fuel budget and `chunk_text` returns the loop's result. -/
theorem chunk_text_terminates_witness :
    chunkLoopFuel tokCost cfg4w (['a'].length + 1) ['a'] 0 0 [] =
      some (chunkLoop tokCost cfg4w ['a'] 0 0 []) ∧
    chunk_text tokCost cfg4w ['a'] =
      Except.ok (chunkLoop tokCost cfg4w ['a'] 0 0 []) := by
  refine ⟨(chunk_text_terminates tokCost cfg4w).1 ['a'] 0 0 [], ?_⟩
  exact (chunk_text_terminates tokCost cfg4w).2.2 ['a'] (by decide)

theorem chunkLoop_nil (tok : Tokenizer) (cfg : ChunkingConfig)
    (chunk_id cur_pos : Nat) (chunks : List TextChunk) :
    chunkLoop tok cfg [] chunk_id cur_pos chunks = chunks := by
  rw [chunkLoop, if_pos pyStrip_nil]

theorem chunkLoop_shape (tok : Tokenizer) (cfg : ChunkingConfig) :
    ∀ remaining : List Char, ∀ chunk_id cur_pos : Nat,
    ((chunkLoop tok cfg remaining chunk_id cur_pos []).map TextChunk.chunk_id =
      List.range' chunk_id
        (chunkLoop tok cfg remaining chunk_id cur_pos []).length) ∧
    (∀ c ∈ chunkLoop tok cfg remaining chunk_id cur_pos [],
      (c.chunk_type = ChunkType.FIRST ↔ c.chunk_id = 0)) ∧
    (∀ c ∈ (chunkLoop tok cfg remaining chunk_id cur_pos []).dropLast,
      c.chunk_type ≠ ChunkType.FINAL) := by
  intro remaining chunk_id cur_pos
  by_cases h1 : pyStrip remaining = []
  · rw [chunkLoop, if_pos h1]
    simp
  · rw [chunkLoop, if_neg h1]
    dsimp only
    by_cases h2 : pyStrip (remaining.take
        (findOptimalBoundary tok remaining (get_effective_chunk_size cfg)).1) = []
    · rw [if_pos h2]
      simp
    · rw [if_neg h2]
      by_cases h3 :
          (findOptimalBoundary tok remaining (get_effective_chunk_size cfg)).1 = 0
      · rw [if_pos h3]
        refine ⟨by simp [List.range'_succ], ?_, by simp⟩
        intro c hc
        simp only [List.nil_append, List.mem_singleton] at hc
        subst hc
        by_cases hid : chunk_id = 0
        · simp [hid]
        · simp only [hid, if_false]
          split_ifs <;> simp [hid]
      · rw [if_neg h3]
        rw [chunkLoop_append tok cfg _ _ _ ([] ++ _)]
        simp only [List.nil_append, List.singleton_append]
        have ih := chunkLoop_shape tok cfg (pyStrip (remaining.drop
          (findOptimalBoundary tok remaining (get_effective_chunk_size cfg)).1))
          (chunk_id + 1) (cur_pos +
            (findOptimalBoundary tok remaining (get_effective_chunk_size cfg)).1)
        refine ⟨?_, ?_, ?_⟩
        · simp only [List.map_cons, List.length_cons, List.range'_succ, ih.1]
        · intro c hc
          rcases List.mem_cons.mp hc with hc1 | hc2
          · subst hc1
            by_cases hid : chunk_id = 0
            · simp [hid]
            · simp only [hid, if_false]
              split_ifs <;> simp [hid]
          · exact ih.2.1 c hc2
        · cases hL : chunkLoop tok cfg (pyStrip (remaining.drop
              (findOptimalBoundary tok remaining
                (get_effective_chunk_size cfg)).1)) (chunk_id + 1)
              (cur_pos + (findOptimalBoundary tok remaining
                (get_effective_chunk_size cfg)).1) [] with
          | nil =>
            simp
          | cons c2 L2 =>
            have hLne : chunkLoop tok cfg (pyStrip (remaining.drop
                (findOptimalBoundary tok remaining
                  (get_effective_chunk_size cfg)).1)) (chunk_id + 1)
                (cur_pos + (findOptimalBoundary tok remaining
                  (get_effective_chunk_size cfg)).1) [] ≠ [] := by
              rw [hL]
              simp
            have hrem : pyStrip (remaining.drop
                (findOptimalBoundary tok remaining
                  (get_effective_chunk_size cfg)).1) ≠ [] := by
              intro hremnil
              rw [hremnil] at hLne
              exact hLne (chunkLoop_nil tok cfg _ _ _)
            rw [List.dropLast_cons_of_ne_nil (by simp)]
            intro c hc
            rcases List.mem_cons.mp hc with hc1 | hc2
            · subst hc1
              by_cases hid : chunk_id = 0
              · simp [hid]
              · simp [hid, hrem]
            · rw [← hL] at hc2
              exact ih.2.2 c hc2
termination_by remaining _ _ => remaining.length
decreasing_by
  all_goals
    have h4 := pyStrip_length_le (remaining.drop
      (findOptimalBoundary tok remaining (get_effective_chunk_size cfg)).1)
    all_goals simp only [List.length_drop] at h4
    all_goals have h5 : remaining ≠ [] := pyStrip_ne_nil_of_arg h1
    all_goals have h6 : 0 < remaining.length := List.length_pos.mpr h5
    all_goals omega

/-- C5 (amended): in every sequence returned by `chunk_text`, a chunk is
FIRST exactly when it is the first emitted (index 0); a FINAL chunk occurs
only at the last index; and every chunk that is neither the first nor the
last is MIDDLE.  (If the run ends through the empty-extraction or
zero-boundary safety valve, the sequence may be empty or its last chunk may
be MIDDLE rather than FINAL — see the counterexample; a single-chunk sequence
is `[FIRST]` by the first conjunct.) -/
theorem chunk_text_kinds (tok : Tokenizer) (cfg : ChunkingConfig)
    (text : List Char) (chunks : List TextChunk)
    (h : chunk_text tok cfg text = Except.ok chunks)
    (i : Nat) (hi : i < chunks.length) :
    ((chunks.get ⟨i, hi⟩).chunk_type = ChunkType.FIRST ↔ i = 0) ∧
    ((chunks.get ⟨i, hi⟩).chunk_type = ChunkType.FINAL → i + 1 = chunks.length) ∧
    (0 < i → i + 1 < chunks.length →
      (chunks.get ⟨i, hi⟩).chunk_type = ChunkType.MIDDLE) := by
  have hchunks : chunkLoop tok cfg text 0 0 [] = chunks := by
    unfold chunk_text at h
    by_cases hb : pyStrip text = []
    · rw [if_pos hb] at h
      simp at h
    · rw [if_neg hb] at h
      exact Except.ok.inj h
  have hloop := chunkLoop_shape tok cfg text 0 0
  rw [hchunks] at hloop
  obtain ⟨s1, s2, s3⟩ := hloop
  have hid : (chunks.get ⟨i, hi⟩).chunk_id = i := by
    have h2 : i < (chunks.map TextChunk.chunk_id).length := by
      simpa using hi
    have h3 := List.get_of_eq s1 ⟨i, h2⟩
    simp only [List.get_eq_getElem, List.getElem_map, List.getElem_range'] at h3
    simpa using h3
  have hfirst : (chunks.get ⟨i, hi⟩).chunk_type = ChunkType.FIRST ↔ i = 0 := by
    rw [s2 _ (List.get_mem _ i hi), hid]
  have hfinal : (chunks.get ⟨i, hi⟩).chunk_type = ChunkType.FINAL →
      i + 1 = chunks.length := by
    intro hfin
    by_contra hne
    have hlt : i < chunks.dropLast.length := by
      rw [List.length_dropLast]
      omega
    have heq : chunks.dropLast.get ⟨i, hlt⟩ = chunks.get ⟨i, hi⟩ := by
      simp [List.getElem_dropLast]
    exact s3 _ (heq ▸ List.get_mem _ i hlt) hfin
  refine ⟨hfirst, hfinal, ?_⟩
  intro hpos hlt
  cases hty : (chunks.get ⟨i, hi⟩).chunk_type with
  | FIRST =>
    rw [hfirst.mp hty] at hpos
    omega
  | MIDDLE => rfl
  | FINAL =>
    have := hfinal hty
    omega

set_option maxRecDepth 40000 in
set_option maxHeartbeats 1000000 in
/-- Counterexample for C5: a valid configuration and a concrete run (with a
tokenizer satisfying the monotone-prefix precondition) whose result has two
chunks but no FINAL chunk — the last emitted chunk is MIDDLE, because the loop
then stops through the zero-boundary/empty-extraction safety valve with text
(`"zz"`, too expensive for any prefix to fit) still unprocessed. -/
theorem chunk_text_kinds_cx :
    validChunkingConfig cfg5cx ∧
    ((chunk_text tokCost cfg5cx text5cx).toOption.getD []).map
      TextChunk.chunk_type = [ChunkType.FIRST, ChunkType.MIDDLE] := by
  constructor
  · decide
  · simp +decide [chunk_text, chunkLoop, findOptimalBoundary,
      find_token_boundary, findBoundaryLoop, count_tokens, tokCost, chCost,
      text5cx, cfg5cx, get_effective_chunk_size, pyStrip, pyLStrip, pyRStrip,
      pyIsSpace, scanCandidates, parEnds, parEndsGo, sentEnds, sentEndsGo,
      lineEnds, lineEndsGo, is_within_token_limit, getBoundaryInfo,
      hasParBreak, hasSentBreak, isPunct, spaceAtHead, createOverlap,
      splitSentences]

set_option maxRecDepth 40000 in
set_option maxHeartbeats 1000000 in
/-- Witness for C5's amended theorem: a concrete single-chunk run, whose only
chunk is FIRST (index 0). -/
theorem chunk_text_kinds_witness :
    (([(⟨0, ChunkType.FIRST, ['a'], 1, 0, 1, 0, ⟨1, "edge", 0, none, none⟩, 1⟩ :
        TextChunk)]).get ⟨0, by simp⟩).chunk_type = ChunkType.FIRST ↔
      (0 : Nat) = 0 := by
  have hEval : chunk_text tokCost cfg4w ['a'] =
      Except.ok [⟨0, ChunkType.FIRST, ['a'], 1, 0, 1, 0,
        ⟨1, "edge", 0, none, none⟩, 1⟩] := by
    simp +decide [chunk_text, chunkLoop, findOptimalBoundary,
      find_token_boundary, findBoundaryLoop, count_tokens, tokCost, chCost,
      cfg4w, get_effective_chunk_size, pyStrip, pyLStrip, pyRStrip, pyIsSpace,
      scanCandidates, parEnds, parEndsGo, sentEnds, sentEndsGo, lineEnds,
      lineEndsGo, is_within_token_limit, getBoundaryInfo, hasParBreak,
      hasSentBreak, isPunct, spaceAtHead, createOverlap, splitSentences]
  exact (chunk_text_kinds tokCost cfg4w ['a'] _ hEval 0 (by simp)).1

/-- C3 (amended): for every non-blank text whose total token count is at most
the *effective chunk size* `max_chunk_tokens - overlap_tokens` (not
`max_chunk_tokens` itself), `chunk_text` returns exactly one chunk, of kind
FIRST, with `boundary_score = 1.0` and `overlap_with_previous = 0`. -/
theorem chunk_text_single (tok : Tokenizer) (cfg : ChunkingConfig)
    (text : List Char) (hne : pyStrip text ≠ [])
    (hfit : (count_tokens tok text : Int) ≤ get_effective_chunk_size cfg) :
    ∃ c : TextChunk, chunk_text tok cfg text = Except.ok [c] ∧
      c.chunk_type = ChunkType.FIRST ∧ c.boundary_score = 1 ∧
      c.overlap_with_previous = 0 := by
  have htne : text ≠ [] := pyStrip_ne_nil_of_arg hne
  have hfob : findOptimalBoundary tok text (get_effective_chunk_size cfg) =
      (text.length, 1) := by
    have h := findOptimalBoundary_fits tok text (get_effective_chunk_size cfg) hfit
    rwa [if_neg htne] at h
  unfold chunk_text
  rw [if_neg hne]
  rw [chunkLoop, if_neg hne]
  dsimp only
  rw [hfob]
  dsimp only
  rw [List.take_length, List.drop_length, pyStrip_nil]
  rw [if_neg hne]
  rw [if_neg (show ¬((0 : Nat) > 0 ∧ 0 < cfg.overlap_tokens) by simp)]
  rw [if_pos rfl]
  rw [if_neg (show ¬text.length = 0 from fun h => htne (List.length_eq_zero.mp h))]
  rw [chunkLoop_nil]
  exact ⟨_, rfl, rfl, rfl, rfl⟩

set_option maxRecDepth 40000 in
set_option maxHeartbeats 1000000 in
/-- Counterexample for C3: a valid configuration and a non-blank text whose
total token count (8) is below `max_chunk_tokens` (10) yet above the
effective chunk size (10 − 5 = 5): the run produces two chunks, not one. -/
theorem chunk_text_single_cx :
    validChunkingConfig cfg3cx ∧
    count_tokens tokCost text3cx < 10 ∧ cfg3cx.max_chunk_tokens = 10 ∧
    ((chunk_text tokCost cfg3cx text3cx).toOption.getD []).length = 2 := by
  refine ⟨by decide, by decide, rfl, ?_⟩
  simp +decide [chunk_text, chunkLoop, findOptimalBoundary,
    find_token_boundary, findBoundaryLoop, count_tokens, tokCost, chCost,
    text3cx, cfg3cx, get_effective_chunk_size, pyStrip, pyLStrip, pyRStrip,
    pyIsSpace, scanCandidates, parEnds, parEndsGo, sentEnds, sentEndsGo,
    lineEnds, lineEndsGo, is_within_token_limit, getBoundaryInfo, hasParBreak,
    hasSentBreak, isPunct, spaceAtHead, createOverlap, splitSentences]

/-- Witness for C3's amended theorem at a concrete input: `"aa"` has 2 tokens,
at most the effective chunk size 5 of the (10, 5) configuration. -/
theorem chunk_text_single_witness :
    ∃ c : TextChunk, chunk_text tokCost cfgW ['a', 'a'] = Except.ok [c] ∧
      c.chunk_type = ChunkType.FIRST ∧ c.boundary_score = 1 ∧
      c.overlap_with_previous = 0 :=
  chunk_text_single tokCost cfgW ['a', 'a'] (by decide) (by decide)

theorem scanCandidates_take_le (tok : Tokenizer) (text : List Char)
    (target : Int) (score : Rat) (start : Nat) :
    ∀ ends : List Nat, ∀ best : Nat × Rat,
    (count_tokens tok (text.take best.1) : Int) ≤ target + 50 →
    (count_tokens tok (text.take
      (scanCandidates tok text target score start ends best).1) : Int)
      ≤ target + 50 := by
  intro ends
  induction ends with
  | nil =>
    intro best h
    rw [scanCandidates]
    exact h
  | cons e rest ih =>
    intro best h
    rw [scanCandidates]
    apply ih
    by_cases hc : is_within_token_limit tok (text.take (start + e)) target &&
        decide (best.2 < score)
    · rw [if_pos hc]
      have h2 := (Bool.and_eq_true_iff.mp hc).1
      unfold is_within_token_limit at h2
      exact of_decide_eq_true h2
    · rw [if_neg hc]
      exact h

theorem findOptimalBoundary_take_le (tok : Tokenizer) (text : List Char)
    (target : Int) (htarget : 0 ≤ target) :
    (count_tokens tok (text.take (findOptimalBoundary tok text target).1) : Int)
      ≤ target + 50 := by
  unfold findOptimalBoundary
  by_cases hnil : text = []
  · rw [if_pos hnil]
    simp [hnil, count_tokens]
    omega
  · rw [if_neg hnil]
    by_cases hfit : (count_tokens tok text : Int) ≤ target
    · rw [if_pos hfit]
      dsimp only
      rw [List.take_length]
      omega
    · rw [if_neg hfit]
      dsimp only
      have h0 : (count_tokens tok
          (text.take (find_token_boundary tok text target)) : Int)
          ≤ target + 50 := by
        have := find_token_boundary_take_le tok text target htarget
        omega
      split_ifs with hb1 hb2 hb3
      · exact scanCandidates_take_le _ _ _ _ _ _ _
          (scanCandidates_take_le _ _ _ _ _ _ _
            (scanCandidates_take_le _ _ _ _ _ _ _ h0))
      · exact scanCandidates_take_le _ _ _ _ _ _ _
          (scanCandidates_take_le _ _ _ _ _ _ _ h0)
      · exact scanCandidates_take_le _ _ _ _ _ _ _
          (scanCandidates_take_le _ _ _ _ _ _ _ h0)
      · exact scanCandidates_take_le _ _ _ _ _ _ _ h0

theorem chunkLoop_token_bound (tok : Tokenizer) (cfg : ChunkingConfig)
    (hmono : ∀ s t : List Char, s <:+: t →
      count_tokens tok s ≤ count_tokens tok t)
    (htarget : 0 ≤ get_effective_chunk_size cfg) :
    ∀ remaining : List Char, ∀ chunk_id cur_pos : Nat,
    ∀ chunks : List TextChunk,
    (∀ c ∈ chunks, (c.token_count : Int) ≤ get_effective_chunk_size cfg + 50) →
    ∀ c ∈ chunkLoop tok cfg remaining chunk_id cur_pos chunks,
      (c.token_count : Int) ≤ get_effective_chunk_size cfg + 50 := by
  intro remaining chunk_id cur_pos chunks hacc c hc
  by_cases h1 : pyStrip remaining = []
  · rw [chunkLoop, if_pos h1] at hc
    exact hacc c hc
  · rw [chunkLoop, if_neg h1] at hc
    dsimp only at hc
    by_cases h2 : pyStrip (remaining.take
        (findOptimalBoundary tok remaining (get_effective_chunk_size cfg)).1) = []
    · rw [if_pos h2] at hc
      exact hacc c hc
    · rw [if_neg h2] at hc
      have hchunkbound : (count_tokens tok (pyStrip (remaining.take
          (findOptimalBoundary tok remaining
            (get_effective_chunk_size cfg)).1)) : Int)
          ≤ get_effective_chunk_size cfg + 50 := by
        have hstrip := hmono _ _ (pyStrip_infix_self (remaining.take
          (findOptimalBoundary tok remaining (get_effective_chunk_size cfg)).1))
        have hfob := findOptimalBoundary_take_le tok remaining
          (get_effective_chunk_size cfg) htarget
        omega
      by_cases h3 :
          (findOptimalBoundary tok remaining (get_effective_chunk_size cfg)).1 = 0
      · rw [if_pos h3] at hc
        rcases List.mem_append.mp hc with hcl | hcr
        · exact hacc c hcl
        · rw [List.mem_singleton] at hcr
          subst hcr
          simpa using hchunkbound
      · rw [if_neg h3] at hc
        refine chunkLoop_token_bound tok cfg hmono htarget _ _ _ _ ?_ c hc
        intro c2 hc2
        rcases List.mem_append.mp hc2 with hcl | hcr
        · exact hacc c2 hcl
        · rw [List.mem_singleton] at hcr
          subst hcr
          simpa using hchunkbound
termination_by remaining _ _ _ _ _ _ => remaining.length
decreasing_by
  all_goals
    have h4 := pyStrip_length_le (remaining.drop
      (findOptimalBoundary tok remaining (get_effective_chunk_size cfg)).1)
    all_goals simp only [List.length_drop] at h4
    all_goals have h5 : remaining ≠ [] := pyStrip_ne_nil_of_arg h1
    all_goals have h6 : 0 < remaining.length := List.length_pos.mpr h5
    all_goals omega

/-- C1 (amended): for every valid configuration and every tokenizer that is
monotone under contiguous-substring containment (which implies the documented
monotone-prefix precondition), every chunk produced by `chunk_text` has
`token_count ≤ (max_chunk_tokens - overlap_tokens) + 50` — the effective
chunk size plus the 50-token boundary-search tolerance.  The original bound
`token_count ≤ max_chunk_tokens` does not hold: the tolerance can push an
emitted chunk up to `50 - overlap_tokens` tokens past the maximum (see the
counterexample). -/
theorem chunk_text_token_bound (tok : Tokenizer) (cfg : ChunkingConfig)
    (text : List Char) (chunks : List TextChunk)
    (hvalid : validChunkingConfig cfg)
    (hmono : ∀ s t : List Char, s <:+: t →
      count_tokens tok s ≤ count_tokens tok t)
    (h : chunk_text tok cfg text = Except.ok chunks) :
    ∀ c ∈ chunks, (c.token_count : Int) ≤
      (cfg.max_chunk_tokens - cfg.overlap_tokens) + 50 := by
  have htarget : 0 ≤ get_effective_chunk_size cfg := by
    unfold get_effective_chunk_size
    rcases hvalid with ⟨hv1, hv2, hv3⟩
    omega
  have hchunks : chunkLoop tok cfg text 0 0 [] = chunks := by
    unfold chunk_text at h
    by_cases hb : pyStrip text = []
    · rw [if_pos hb] at h
      simp at h
    · rw [if_neg hb] at h
      exact Except.ok.inj h
  intro c hc
  have hb := chunkLoop_token_bound tok cfg hmono htarget text 0 0 []
    (by simp) c (by rw [hchunks]; exact hc)
  simpa [get_effective_chunk_size] using hb

set_option maxRecDepth 40000 in
set_option maxHeartbeats 4000000 in
/-- Counterexample for C1: a valid configuration (`max_chunk_tokens = 10`,
`overlap_tokens = 3`) and a run with a tokenizer satisfying the monotone
precondition (`tokCost`, see `tokCost_sub_mono`) in which the emitted chunk
has `token_count = 11 > 10 = max_chunk_tokens`: the paragraph-break candidate
after `"ab"` (11 tokens) is accepted because the tolerance check only
requires `11 <= (10 - 3) + 50`. -/
theorem chunk_text_token_bound_cx :
    validChunkingConfig cfg1cx ∧ cfg1cx.max_chunk_tokens = 10 ∧
    ((chunk_text tokCost cfg1cx text1cx).toOption.getD []).map
      TextChunk.token_count = [11] := by
  refine ⟨by decide, rfl, ?_⟩
  have hne : pyStrip text1cx ≠ [] := by decide
  have hfob : findOptimalBoundary tokCost text1cx
      (get_effective_chunk_size cfg1cx) = (4, 1) := by
    simp +decide [findOptimalBoundary, find_token_boundary, findBoundaryLoop,
      count_tokens, tokCost, chCost, text1cx, scanCandidates, parEnds,
      parEndsGo, sentEnds, sentEndsGo, lineEnds, lineEndsGo,
      is_within_token_limit, get_effective_chunk_size, cfg1cx]
    norm_num
  unfold chunk_text
  rw [if_neg hne]
  rw [chunkLoop, if_neg hne]
  dsimp only
  rw [hfob]
  dsimp only
  rw [if_neg (show ¬pyStrip (text1cx.take 4) = [] by decide)]
  rw [if_neg (show ¬((0 : Nat) > 0 ∧ 0 < cfg1cx.overlap_tokens) by simp)]
  rw [if_pos rfl]
  rw [if_neg (show ¬(4 : Nat) = 0 by decide)]
  rw [show pyStrip (text1cx.drop 4) = [] by decide]
  rw [chunkLoop_nil]
  decide

set_option maxRecDepth 40000 in
set_option maxHeartbeats 1000000 in
/-- Witness for C1's amended theorem: the chunk of a concrete run satisfies
the effective-size-plus-tolerance bound. -/
theorem chunk_text_token_bound_witness :
    ((⟨0, ChunkType.FIRST, ['a'], 1, 0, 1, 0, ⟨1, "edge", 0, none, none⟩, 1⟩ :
      TextChunk).token_count : Int) ≤
      (cfg4w.max_chunk_tokens - cfg4w.overlap_tokens) + 50 := by
  have hEval : chunk_text tokCost cfg4w ['a'] =
      Except.ok [⟨0, ChunkType.FIRST, ['a'], 1, 0, 1, 0,
        ⟨1, "edge", 0, none, none⟩, 1⟩] := by
    simp +decide [chunk_text, chunkLoop, findOptimalBoundary,
      find_token_boundary, findBoundaryLoop, count_tokens, tokCost, chCost,
      cfg4w, get_effective_chunk_size, pyStrip, pyLStrip, pyRStrip, pyIsSpace,
      scanCandidates, parEnds, parEndsGo, sentEnds, sentEndsGo, lineEnds,
      lineEndsGo, is_within_token_limit, getBoundaryInfo, hasParBreak,
      hasSentBreak, isPunct, spaceAtHead, createOverlap, splitSentences]
  exact chunk_text_token_bound tokCost cfg4w ['a'] _ (by decide)
    (fun s t h => tokCost_sub_mono h) hEval _ (by simp)
